import Mathlib

/-!
Verification development for the `nodyn` procedural-macro crate.

The crate parses a declarative enum description and emits: the enum itself,
`From` conversions, optional `TryFrom` reverse conversions, optional
introspection methods, optional `is_*`/`try_as_*` accessors, method and trait
delegation bodies, and `Vec`-wrapper companion structs.

This file shallowly embeds the parts of the crate that the verified claims
touch.  The authoritative modules are the ones reachable from `lib.rs`
(`mod nodyn_enum; mod variant; mod optional_impl; mod trait_impl; mod
vec_wrapper;` plus the method-impl block), and the embedding below is
translated from those sources:

* `src/variant.rs` — `ident_from_type`, `camel_case_ident`,
  `camel_case_tokens`, `extract_path`, `camel_to_snake`, `type_to_string`,
  `to_try_from_arm`, `to_as_type_arm`, `to_fn_call_arm`, `to_type_as_str_arm`;
* `src/nodyn_enum.rs` — the duplicate-type check in `NodynEnum::parse`,
  `from_tokens`, `try_from_tokens`, `introspection_tokens`, `is_as_tokens`,
  `method_tokens`;
* `src/lib.rs` — the `GenericsExt` helpers `new_type` / `new_lifetime` /
  `new_types`;
* `src/vec_wrapper.rs` — `StandardVecWrapper::into_vec_wrapper` and
  `strip_copy`.

Rust `syn::Type` values are modelled by the inductive `Ty`; generated match
arms are modelled symbolically, and the runtime behaviour of generated
`match` expressions is modelled by evaluation functions that scan the emitted
arms in declaration order, exactly as Rust `match` does.
-/

namespace Nodyn

/-- Model of `syn::Type` restricted to the shapes the crate distinguishes.
A path is a list of segments, each a name together with its generic type
arguments (lifetime and const arguments are dropped by the crate's
`camel_case_ident`, so they are not represented).  `arr` keeps the length
expression as its token text.  `bare` stands for every other shape
(function pointers, trait objects, raw pointers, ...). -/
inductive Ty where
  | path (segs : List (String × List Ty))
  | ref (elem : Ty)
  | arr (elem : Ty) (len : String)
  | slice (elem : Ty)
  | tuple (elems : List Ty)
  | bare (tag : String)

mutual

/-- Structural equality on `Ty`, mirroring `syn::Type`'s derived `PartialEq`
(used by `Vec::contains` on `#[into]` lists and by the `HashSet` in
`NodynEnum::parse`). -/
def tyBeq : Ty → Ty → Bool
  | .path a, .path b => segsBeq a b
  | .ref a, .ref b => tyBeq a b
  | .arr a la, .arr b lb => tyBeq a b && la == lb
  | .slice a, .slice b => tyBeq a b
  | .tuple a, .tuple b => tyListBeq a b
  | .bare a, .bare b => a == b
  | _, _ => false

/-- Structural equality on path segment lists. -/
def segsBeq : List (String × List Ty) → List (String × List Ty) → Bool
  | [], [] => true
  | (n1, a1) :: r1, (n2, a2) :: r2 => n1 == n2 && tyListBeq a1 a2 && segsBeq r1 r2
  | _, _ => false

/-- Structural equality on type lists. -/
def tyListBeq : List Ty → List Ty → Bool
  | [], [] => true
  | x :: xs, y :: ys => tyBeq x y && tyListBeq xs ys
  | _, _ => false

end

theorem tyBeq_iff_aux :
    (∀ a b : Ty, tyBeq a b = true ↔ a = b)
    ∧ (∀ a b : List Ty, tyListBeq a b = true ↔ a = b)
    ∧ (∀ a b : List (String × List Ty), segsBeq a b = true ↔ a = b) := by
  refine tyBeq.mutual_induct
    (fun a b => tyBeq a b = true ↔ a = b)
    (fun a b => tyListBeq a b = true ↔ a = b)
    (fun a b => segsBeq a b = true ↔ a = b)
    ?_ ?_ ?_ ?_ ?_ ?_ ?_ ?_ ?_ ?_ ?_ ?_ ?_
  · intro a b ih; simp [tyBeq, ih]
  · intro a b ih; simp [tyBeq, ih]
  · intro a la b lb ih; simp [tyBeq, ih, and_comm]
  · intro a b ih; simp [tyBeq, ih]
  · intro a b ih; simp [tyBeq, ih]
  · intro a b; simp [tyBeq]
  · intro t x h1 h2 h3 h4 h5 h6
    cases t <;> cases x <;>
      first
        | exact (h1 _ _ rfl rfl).elim
        | exact (h2 _ _ rfl rfl).elim
        | exact (h3 _ _ _ _ rfl rfl).elim
        | exact (h4 _ _ rfl rfl).elim
        | exact (h5 _ _ rfl rfl).elim
        | exact (h6 _ _ rfl rfl).elim
        | simp [tyBeq]
  · simp [segsBeq]
  · intro n1 a1 r1 n2 a2 r2 ih1 ih2; simp [segsBeq, ih1, ih2, and_assoc]
  · intro t x h1 h2
    match t, x with
    | [], [] => exact (h1 rfl rfl).elim
    | [], (n2, a2) :: r2 => simp [segsBeq]
    | (n1, a1) :: r1, [] => simp [segsBeq]
    | (n1, a1) :: r1, (n2, a2) :: r2 => exact (h2 _ _ _ _ _ _ rfl rfl).elim
  · simp [tyListBeq]
  · intro x xs y ys ih1 ih2; simp [tyListBeq, ih1, ih2]
  · intro t x h1 h2
    match t, x with
    | [], [] => exact (h1 rfl rfl).elim
    | [], y :: ys => simp [tyListBeq]
    | z :: zs, [] => simp [tyListBeq]
    | z :: zs, y :: ys => exact (h2 _ _ _ _ rfl rfl).elim

theorem tyBeq_iff (a b : Ty) : tyBeq a b = true ↔ a = b :=
  tyBeq_iff_aux.1 a b

instance : DecidableEq Ty := fun a b => decidable_of_iff _ (tyBeq_iff a b)

/-- Models the per-segment title-casing in `camel_case_ident`:
`first.to_uppercase()` followed by the remaining characters unchanged. -/
def uppercase_first (s : String) : String :=
  match s.data with
  | [] => ""
  | c :: rest => String.mk (c.toUpper :: rest)

/-- Models `camel_case_tokens` from `src/variant.rs`: split the token text on
whitespace, keep only alphanumeric characters of each word, uppercase the
first character of each word, and concatenate. -/
def camel_case_tokens (s : String) : String :=
  String.join (((s.splitOn " ").filter (fun w => w ≠ "")).map
    (fun w => uppercase_first (String.mk (w.data.filter Char.isAlphanum))))

mutual

/-- Models `ident_from_type` from `src/variant.rs` (the module reachable from
`lib.rs`): `Type::Path` uses `camel_case_ident(path, "")`; `Type::Reference`
and `Type::Array` extract the innermost path with `extract_path` and append
`"Ref"` resp. `"Array{len}"`; `Type::Tuple` requires every member to reduce
to a path and appends `"Tuple"`; every other shape — including
`Type::Slice`, which has no arm in this function — is an error (`none`). -/
def ident_from_type : Ty → Option String
  | .path segs => some (camel_case_ident segs "")
  | .ref elem => extract_camel_ident elem "Ref"
  | .arr elem len => extract_camel_ident elem ("Array" ++ camel_case_tokens len)
  | .tuple elems => (tuple_idents elems).map (fun names => String.join names ++ "Tuple")
  | .slice _ => none
  | .bare _ => none

/-- Fusion of `extract_path` with `camel_case_ident`: descend through
references and arrays to the underlying path and camel-case it with the
given extension; fail on every other shape.  The lemma
`extract_camel_ident_eq` relates this to the separate `extract_path`. -/
def extract_camel_ident : Ty → String → Option String
  | .path segs, ext => some (camel_case_ident segs ext)
  | .ref elem, ext => extract_camel_ident elem ext
  | .arr elem _, ext => extract_camel_ident elem ext
  | _, _ => none

/-- Models `camel_case_ident` from `src/variant.rs`: for each path segment,
title-case the segment name, append the concatenated identifiers of its
generic type arguments (arguments whose derivation fails are silently
dropped by `filter_map`/`ok`), and append the extension; the per-segment
strings are then concatenated.  Note the extension is appended to every
segment, because the `format!` carrying `{extension}` sits inside the
per-segment `map`. -/
def camel_case_ident : List (String × List Ty) → String → String
  | [], _ => ""
  | (name, args) :: rest, ext =>
      uppercase_first name ++ args_idents args ++ ext ++ camel_case_ident rest ext

/-- Concatenation of the identifiers derived from generic arguments; failed
derivations contribute nothing (`ident_from_type(ty).ok()` + `filter_map`). -/
def args_idents : List Ty → String
  | [] => ""
  | t :: ts => (ident_from_type t).getD "" ++ args_idents ts

/-- The tuple arm of `ident_from_type`: each member must reduce to a path via
`extract_path` (`collect::<Option<Vec<_>>>`), and is camel-cased with no
extension. -/
def tuple_idents : List Ty → Option (List String)
  | [] => some []
  | t :: ts =>
      match extract_camel_ident t "" with
      | none => none
      | some s => (tuple_idents ts).map (s :: ·)

end

/-- Models `extract_path` from `src/variant.rs`: a path type yields its path;
references and arrays recurse into their element type; every other shape
(slices included) yields `None`. -/
def extract_path : Ty → Option (List (String × List Ty))
  | .path segs => some segs
  | .ref elem => extract_path elem
  | .arr elem _ => extract_path elem
  | _ => none

theorem extract_camel_ident_eq (t : Ty) (ext : String) :
    extract_camel_ident t ext = (extract_path t).map (fun segs => camel_case_ident segs ext) := by
  induction t using extract_path.induct with
  | case1 segs => simp [extract_camel_ident, extract_path]
  | case2 elem ih => simpa [extract_camel_ident, extract_path] using ih
  | case3 elem len ih => simpa [extract_camel_ident, extract_path] using ih
  | case4 t h1 h2 h3 =>
      match t, h1, h2, h3 with
      | .slice e, _, _, _ => simp [extract_camel_ident, extract_path]
      | .tuple es, _, _, _ => simp [extract_camel_ident, extract_path]
      | .bare s, _, _, _ => simp [extract_camel_ident, extract_path]
      | .path segs, h1, _, _ => exact (h1 _ rfl).elim
      | .ref e, _, h2, _ => exact (h2 _ rfl).elim
      | .arr e l, _, _, h3 => exact (h3 _ _ rfl).elim

/-- Models `camel_to_snake` from `src/variant.rs`: iterate over the
characters with a `first` flag that is set to `false` after the first
iteration; an uppercase character is preceded by `'_'` (unless it is the
first character) and pushed lower-cased; every other character is pushed
unchanged. -/
def camel_to_snake_go : List Char → Bool → List Char
  | [], _ => []
  | c :: rest, first =>
      (if c.isUpper then (if first then [] else ['_']) ++ [c.toLower] else [c])
        ++ camel_to_snake_go rest false

/-- Entry point of the snake-case conversion, `camel_to_snake`. -/
def camel_to_snake (s : String) : String :=
  String.mk (camel_to_snake_go s.data true)

/-- Restatement of the specification's description of the snake-case
companion routine: lower-case every character, inserting an underscore
before each uppercase letter except the very first character.  This is
written from the spec's words, to be compared with `camel_to_snake`. -/
def snake_spec (s : String) : String :=
  match s.data with
  | [] => ""
  | c :: rest =>
      String.mk (c.toLower ::
        (rest.map (fun d => if d.isUpper then ['_', d.toLower] else [d.toLower])).flatten)

mutual

/-- Models `Variant::type_to_string` from `src/variant.rs`: the type's token
text after the clean-up replacements (`"& " → "&"`, `" < " → "<"`,
`" >" → ">"`).  The renderer below produces the cleaned form directly:
path segments are joined by `" :: "` (the replacements do not touch `::`
spacing), generic argument lists and comma separators keep the `" , "`
spacing of the token stream, references are rendered without a space. -/
def ty_render : Ty → String
  | .path segs => render_segs segs
  | .ref elem => "&" ++ ty_render elem
  | .arr elem len => "[" ++ ty_render elem ++ " ; " ++ len ++ "]"
  | .slice elem => "[" ++ ty_render elem ++ "]"
  | .tuple elems => "(" ++ render_comma_list elems ++ ")"
  | .bare tag => tag

/-- Renders a path's segments, `" :: "`-separated, each with its generic
argument list. -/
def render_segs : List (String × List Ty) → String
  | [] => ""
  | [(name, args)] =>
      name ++ (match args with | [] => "" | _ => "<" ++ render_comma_list args ++ ">")
  | (name, args) :: rest =>
      name ++ (match args with | [] => "" | _ => "<" ++ render_comma_list args ++ ">")
        ++ " :: " ++ render_segs rest

/-- Renders a comma-separated type list. -/
def render_comma_list : List Ty → String
  | [] => ""
  | [t] => ty_render t
  | t :: rest => ty_render t ++ " , " ++ render_comma_list rest

end

/-- Models the `Variant` struct from `src/variant.rs`: pass-through
attributes (kept as raw token text), the `#[into]` conversion targets, the
display identifier and the wrapped type. -/
structure Variant where
  attrs : List String
  into : List Ty
  ident : String
  ty : Ty
  deriving DecidableEq

/-- Method `Variant::type_to_string`. -/
def Variant.type_to_string (v : Variant) : String :=
  ty_render v.ty

/-! Concrete fixtures used by witnesses and counterexamples: the primitive
path types `i32`, `u32`, `i64`, `f64`, `String`, and variants over them as
the crate's parser would produce from inputs such as
`enum Value { i32, String, f64 }` or `#[into(i64)] i32`. -/

def tyI32 : Ty := Ty.path [("i32", [])]

def tyU32 : Ty := Ty.path [("u32", [])]

def tyI64 : Ty := Ty.path [("i64", [])]

def tyF64 : Ty := Ty.path [("f64", [])]

def tyStringPath : Ty := Ty.path [("String", [])]

def vI32 : Variant := { attrs := [], into := [], ident := "I32", ty := tyI32 }

def vI64 : Variant := { attrs := [], into := [], ident := "I64", ty := tyI64 }

def vF64 : Variant := { attrs := [], into := [], ident := "F64", ty := tyF64 }

def vString : Variant := { attrs := [], into := [], ident := "String", ty := tyStringPath }

/-- The variant parsed from `#[into(i64)] i32`. -/
def vI32intoI64 : Variant := { attrs := [], into := [tyI64], ident := "I32", ty := tyI32 }

/-- The variant parsed from `i32 (u32)`: display name derived from the outer
type `i32`, wrapped type the parenthesized `u32`. -/
def vU32namedI32 : Variant := { attrs := [], into := [], ident := "I32", ty := tyU32 }

/-- Symbolic right-hand side of a generated `TryFrom` match arm:
`Ok(value)`, `Ok(value.into())`, or `Err(message)`. -/
inductive TryFromArm where
  | okValue
  | okValueInto
  | errMsg (msg : String)
  deriving DecidableEq

/-- Models `Variant::to_try_from_arm` from `src/variant.rs` (called
`try_from_arm_tokens` at its use site in `nodyn_enum.rs`): identical
variant identifiers give `Ok(value)`; otherwise, if the target's wrapped
type occurs in the source's `#[into]` list, `Ok(value.into())`; otherwise
`Err` with a message naming both type strings. -/
def to_try_from_arm (self other : Variant) : TryFromArm :=
  if self.ident = other.ident then .okValue
  else if other.ty ∈ self.into then .okValueInto
  else .errMsg ("No conversion from '" ++ self.type_to_string ++ "' to " ++ other.type_to_string)

/-- Runtime behaviour of the `TryFrom` impl generated for target variant
`target` by `NodynEnum::try_from_tokens`: the match scans one arm per
declared variant in declaration order; an arm fires when the scrutinee
holds the variant with that arm's identifier.  `none` models a value whose
variant has no arm (impossible for values of the generated enum). -/
def try_from_eval (variants : List Variant) (target : Variant) (src : String) :
    Option TryFromArm :=
  match variants with
  | [] => none
  | v :: rest =>
      if v.ident = src then some (to_try_from_arm v target) else try_from_eval rest target src

/-- Symbolic right-hand side of a generated `try_as_*` match arm:
`Some(value)` or `Some(value.into())`. -/
inductive AsTypeArm where
  | value
  | valueInto
  deriving DecidableEq

/-- Models `Variant::to_as_type_arm` from `src/variant.rs`: a variant whose
wrapped type equals the target type contributes `Some(value)`; one whose
`#[into]` list contains the target contributes `Some(value.into())`; every
other variant contributes no arm (empty tokens). -/
def to_as_type_arm (v : Variant) (target : Ty) : Option AsTypeArm :=
  if v.ty = target then some .value
  else if target ∈ v.into then some .valueInto
  else none

/-- Models the `From<T> for Enum` impl generated by
`NodynEnum::from_tokens`: the constructed enum value is the variant's
alternative holding the payload, modelled as the pair of the variant
identifier and the payload. -/
def from_value {α : Type} (v : Variant) (x : α) : String × α :=
  (v.ident, x)

/-- Runtime behaviour of the generated consuming accessor `try_as_*` for
target type `target` (from `NodynEnum::is_as_tokens`): the match contains
one arm per variant that contributes one (see `to_as_type_arm`), scanned in
declaration order, followed by a default `_ => None` arm.  `conv` models
the payload's `.into()` conversion. -/
def try_as_eval {α : Type} (variants : List Variant) (target : Ty) (src : String)
    (payload : α) (conv : α → α) : Option α :=
  match variants with
  | [] => none
  | v :: rest =>
      match to_as_type_arm v target with
      | some arm =>
          if v.ident = src then
            match arm with
            | .value => some payload
            | .valueInto => some (conv payload)
          else try_as_eval rest target src payload conv
      | none => try_as_eval rest target src payload conv

/-- Models the constant `count` method from
`NodynEnum::introspection_tokens`: `self.variants.len()`. -/
def introspection_count (variants : List Variant) : Nat :=
  variants.length

/-- Models the constant `types` method from
`NodynEnum::introspection_tokens`: the variants' type strings, in
declaration order. -/
def introspection_types (variants : List Variant) : List String :=
  variants.map Variant.type_to_string

/-- Runtime behaviour of the generated `type_name` method: one arm per
variant (`Variant::to_type_as_str_arm`), scanned in declaration order,
returning the held variant's type string. -/
def type_name_eval (variants : List Variant) (src : String) : Option String :=
  match variants with
  | [] => none
  | v :: rest => if v.ident = src then some v.type_to_string else type_name_eval rest src

/-- Models the uniqueness pass of `NodynEnum::parse`: walk the parsed
variants in order, inserting each wrapped type into a set of already-seen
types; a type that is already present aborts parsing with the error
`"Duplicate variant type detected"`.  No check on variant identifiers is
performed. -/
def check_duplicate_types (seen : List Ty) : List Variant → Except String Unit
  | [] => .ok ()
  | v :: rest =>
      if v.ty ∈ seen then .error "Duplicate variant type detected"
      else check_duplicate_types (v.ty :: seen) rest

/-- Model of `syn::FnArg`: a receiver (`self`, `&self`, `&mut self`) or a
typed parameter carrying its pattern text. -/
inductive FnArg where
  | receiver
  | typed (pat : String)
  deriving DecidableEq

/-- Model of a bodyless delegation signature: the method name and its
parameter list. -/
structure FnSig where
  name : String
  inputs : List FnArg
  deriving DecidableEq

/-- Symbolic form of a dispatch arm generated by `Variant::to_fn_call_arm`:
`Wrapper::VariantIdent(value) => value.call_name(call_args)`. -/
structure MatchArm where
  variant_ident : String
  call_name : String
  call_args : List String
  deriving DecidableEq

/-- Models `Variant::to_fn_call_arm`: the arm pattern-matches the variant and
forwards to the same-named method on the payload, passing the patterns of
all typed (non-receiver) parameters positionally. -/
def to_fn_call_arm (v : Variant) (function : String) (inputs : List FnArg) : MatchArm :=
  { variant_ident := v.ident
    call_name := function
    call_args := inputs.filterMap (fun a => match a with | .receiver => none | .typed p => some p) }

/-- One step of the `filter_map` in `NodynEnum::method_tokens`: a signature
whose first parameter is a receiver is expanded to one dispatch arm per
variant; any other signature produces nothing (and no diagnostic). -/
def expand_method (variants : List Variant) (f : FnSig) : Option (List MatchArm) :=
  match f.inputs.head? with
  | some .receiver => some (variants.map (fun v => to_fn_call_arm v f.name f.inputs))
  | _ => none

/-- Models the per-block expansion of `NodynEnum::method_tokens` (and the
equivalent `ImplBlock::expand_methods`): every bodyless signature is run
through `expand_method`, dropped signatures leave no trace.  The function
is total — emission cannot fail. -/
def method_tokens (variants : List Variant) (fns : List FnSig) :
    List (FnSig × List MatchArm) :=
  fns.filterMap (fun f => (expand_method variants f).map (fun arms => (f, arms)))

/-- Model of `syn::Generics` as far as the `GenericsExt` helpers inspect it:
the lifetime names (stored without the leading apostrophe; the Rust code
compares full `'c` strings, which is in bijection with the letter) and the
type-parameter identifiers. -/
structure Generics where
  lifetimes : List String
  type_params : List String
  deriving DecidableEq

/-- Models `GenericsExt::contains_lifetime`. -/
def contains_lifetime (g : Generics) (other : String) : Bool :=
  g.lifetimes.contains other

/-- Models `GenericsExt::contains_type`. -/
def contains_type (g : Generics) (other : String) : Bool :=
  g.type_params.contains other

/-- The scan order of `new_type`: `'A'..='Z'`. -/
def upper_alphabet : List Char :=
  (List.range 26).map (fun i => Char.ofNat (65 + i))

/-- The scan order of `new_lifetime`: `('a'..='z').rev()`. -/
def lower_alphabet_rev : List Char :=
  (List.range 26).map (fun i => Char.ofNat (122 - i))

/-- Models `GenericsExt::new_type` from `src/lib.rs`: return the first letter
of `'A'..='Z'` that is not already a type parameter; `none` models the
`panic!("no new lifetime available")` fallthrough. -/
def new_type (g : Generics) : Option String :=
  (upper_alphabet.find? (fun c => ! contains_type g c.toString)).map Char.toString

/-- Models `GenericsExt::new_lifetime` from `src/lib.rs`: return the first
letter of `('a'..='z').rev()` whose lifetime is not already present; `none`
models the `panic!` fallthrough. -/
def new_lifetime (g : Generics) : Option String :=
  (lower_alphabet_rev.find? (fun c => ! contains_lifetime g c.toString)).map Char.toString

/-- Models `GenericsExt::new_types`: collect unused letters of `'A'..='Z'` in
order until `count` of them have been found (returning early), or the
alphabet is exhausted. -/
def new_types (g : Generics) (count : Nat) : List String :=
  ((upper_alphabet.filter (fun c => ! contains_type g c.toString)).take count).map Char.toString

/-- One item inside a `#[derive(...)]` attribute list: a plain identifier,
or a token that is not a plain identifier (e.g. a path like
`serde::Serialize`), on which `strip_copy`'s inner parse fails. -/
inductive DeriveItem where
  | ident (name : String)
  | non_ident (tokens : String)
  deriving DecidableEq

/-- Model of an outer attribute as far as `strip_copy` inspects it: a
`#[derive(...)]` list or any other attribute kept as raw text. -/
inductive Attr where
  | derive (items : List DeriveItem)
  | other (tokens : String)
  deriving DecidableEq

/-- The `Punctuated::<Ident, Token![,]>::parse_terminated` call inside
`strip_copy`: succeeds only when every item is a plain identifier. -/
def parse_ident_list : List DeriveItem → Option (List String)
  | [] => some []
  | .ident s :: rest => (parse_ident_list rest).map (s :: ·)
  | .non_ident _ :: _ => none

/-- Per-attribute behaviour of `strip_copy` from `src/vec_wrapper.rs`: a
`derive` list is re-parsed as identifiers (the `.ok()`-then-`.unwrap()`
panics, modelled as `none`, when that fails) and rebuilt with every `Copy`
identifier removed; any other attribute is cloned unchanged. -/
def strip_copy_attr : Attr → Option Attr
  | .derive items =>
      (parse_ident_list items).map (fun ids => .derive ((ids.filter (· ≠ "Copy")).map .ident))
  | .other s => some (.other s)

/-- Models `strip_copy`: map `strip_copy_attr` over the attributes in order;
a single failing derive list aborts the whole expansion (panic, modelled
`none`). -/
def strip_copy : List Attr → Option (List Attr)
  | [] => some []
  | a :: rest =>
      match strip_copy_attr a with
      | none => none
      | some b => (strip_copy rest).map (b :: ·)

/-- The `ItemStruct` assembled by `StandardVecWrapper::into_vec_wrapper`,
restricted to what the claims inspect: the attribute list, the struct's
visibility and name, and the single `inner` field's visibility and name,
plus the `is_custom` flag of the surrounding `VecWrapper`. -/
structure VecWrapperDef where
  attrs : List Attr
  vis : String
  ident : String
  field_vis : String
  field_name : String
  is_custom : Bool
  deriving DecidableEq

/-- Models `StandardVecWrapper::into_vec_wrapper` from `src/vec_wrapper.rs`:
the wrapper is named `{Enum}Vec` unless an explicit name was parsed; its
attributes are `#[derive(Default)]`, then the (always empty) attributes
parsed with the `vec` keyword, then the enum's derive attributes with
`Copy` stripped; the struct and its single `inner` field both use the
enum's visibility; the result is a non-custom `VecWrapper`. -/
def into_vec_wrapper (self_attrs : List Attr) (self_ident : Option String)
    (visibility : String) (enum_ident : String) (derive_attrs : List Attr) :
    Option VecWrapperDef :=
  (strip_copy derive_attrs).map (fun stripped =>
    { attrs := Attr.derive [.ident "Default"] :: (self_attrs ++ stripped)
      vis := visibility
      ident := self_ident.getD (enum_ident ++ "Vec")
      field_vis := visibility
      field_name := "inner"
      is_custom := false })

/-! ## Shared helper lemmas -/

theorem toLower_of_not_isUpper (c : Char) (h : c.isUpper = false) : c.toLower = c := by
  simp only [Char.toLower, Char.toNat]
  split
  · next hc =>
    exfalso
    simp only [Char.isUpper, ge_iff_le, Bool.and_eq_false_iff, decide_eq_false_iff_not, not_le,
      UInt32.lt_def, UInt32.le_def, BitVec.lt_def, BitVec.le_def] at h
    obtain ⟨h1, h2⟩ := hc
    have e1 : (UInt32.toBitVec 65).toNat = 65 := rfl
    have e2 : (UInt32.toBitVec 90).toNat = 90 := rfl
    have e3 : c.val.toBitVec.toNat = c.val.toNat := rfl
    rcases h with h | h <;> omega
  · rfl

theorem camel_to_snake_go_false (l : List Char) :
    camel_to_snake_go l false
      = (l.map (fun c => if c.isUpper then ['_', c.toLower] else [c])).flatten := by
  induction l with
  | nil => rfl
  | cons c rest ih => by_cases hc : c.isUpper <;> simp [camel_to_snake_go, hc, ih]

theorem map_ident_ne {l : List Variant} {A B : Variant}
    (hnd : (l.map Variant.ident).Nodup) (hA : A ∈ l) (hB : B ∈ l) (hne : A ≠ B) :
    A.ident ≠ B.ident := by
  intro h
  exact hne (List.inj_on_of_nodup_map hnd hA hB h)

theorem find?_first {α : Type} (p : α → Bool) (l : List α) (hex : ∃ x ∈ l, p x) :
    ∃ c l1 l2, l.find? p = some c ∧ p c = true ∧ l = l1 ++ c :: l2
      ∧ ∀ d ∈ l1, p d = false := by
  induction l with
  | nil => simp at hex
  | cons a rest ih =>
    by_cases ha : p a
    · exact ⟨a, [], rest, by simp [List.find?_cons, ha], ha, by simp, by simp⟩
    · have hrest : ∃ x ∈ rest, p x := by
        rcases hex with ⟨x, hx, hpx⟩
        rcases List.mem_cons.mp hx with rfl | hx2
        · exact absurd hpx ha
        · exact ⟨x, hx2, hpx⟩
      rcases ih hrest with ⟨c, l1, l2, hfind, hpc, heq, hpre⟩
      refine ⟨c, a :: l1, l2, ?_, hpc, by simp [heq], ?_⟩
      · simp [List.find?_cons, Bool.of_not_eq_true ha, ha, hfind]
      · intro d hd
        rcases List.mem_cons.mp hd with rfl | hd2
        · exact Bool.of_not_eq_true ha
        · exact hpre d hd2

theorem exists_not_of_filter_length_lt {α : Type} (p : α → Bool) (l : List α)
    (h : (l.filter p).length < l.length) : ∃ x ∈ l, p x = false := by
  by_contra hall
  push_neg at hall
  have hself : l.filter p = l := List.filter_eq_self.mpr (by
    intro a ha
    exact Bool.of_not_eq_false (hall a ha))
  rw [hself] at h
  omega

theorem camel_case_ident_foldr (segs : List (String × List Ty)) (ext : String) :
    camel_case_ident segs ext
      = (segs.map (fun sg => uppercase_first sg.1 ++ args_idents sg.2 ++ ext)).foldr
          (· ++ ·) "" := by
  induction segs with
  | nil => rfl
  | cons sg rest ih =>
    obtain ⟨name, args⟩ := sg
    simp [camel_case_ident, ih]

/-! ## Claim theorems -/

/-- Claim C6: the snake-case companion routine equals the string obtained by
lower-casing every character and inserting an underscore before each
uppercase letter except the very first character; a run of consecutive
capitals is split letter-by-letter (`HTTPResponse` becomes
`h_t_t_p_response`, matching the crate's own unit test). -/
theorem camel_to_snake_correct :
    (∀ s : String, camel_to_snake s = snake_spec s)
    ∧ camel_to_snake "HTTPResponse" = "h_t_t_p_response" := by
  constructor
  · intro s
    unfold camel_to_snake snake_spec
    rcases hs : s.data with _ | ⟨c, rest⟩
    · rfl
    · have hmap : rest.map (fun c => if c.isUpper then ['_', c.toLower] else [c])
          = rest.map (fun d => if d.isUpper then ['_', d.toLower] else [d.toLower]) := by
        apply List.map_congr_left
        intro d _
        by_cases hd : d.isUpper
        · simp [hd]
        · simp [hd, toLower_of_not_isUpper d (Bool.of_not_eq_true hd)]
      by_cases hc : c.isUpper
      · simp only [camel_to_snake_go, hc, if_true, if_pos rfl]
        rw [camel_to_snake_go_false, hmap]
        rfl
      · simp only [camel_to_snake_go, hc, Bool.false_eq_true, if_false]
        rw [camel_to_snake_go_false, hmap,
          toLower_of_not_isUpper c (Bool.of_not_eq_true hc)]
        rfl
  · rfl

/-- Claim C4 (counterexample): the identifier deriver of the live variant
module rejects a slice type outright — on `[i32]` it returns an error
instead of the `I32Slice` identifier the claim predicts. -/
theorem ident_from_type_slice_counterexample :
    ident_from_type (Ty.slice (Ty.path [("i32", [])])) = none
    ∧ some "I32Slice" ≠ (none : Option String) := by
  exact ⟨rfl, by simp⟩

/-- Claim C4 (amended): for every slice type expression supplied as a
variant's wrapped type, the identifier deriver rejects the shape as
unsupported (`ident_from_type` has no slice arm; slice support exists only
in a module not reachable from `lib.rs`). -/
theorem ident_from_type_slice_rejected (elem : Ty) :
    ident_from_type (Ty.slice elem) = none := rfl

/-- Claim C5 (counterexample): for the reference type
`&std::string::String` — whose referent derives identifier
`StdStringString` — the derived identifier is `StdRefStringRefStringRef`,
with the suffix `Ref` appended to every path segment, not
`StdStringStringRef` with a single trailing `Ref` as the claim states. -/
theorem ref_ident_counterexample :
    ident_from_type (Ty.ref (Ty.path [("std", []), ("string", []), ("String", [])]))
      = some "StdRefStringRefStringRef"
    ∧ ident_from_type (Ty.path [("std", []), ("string", []), ("String", [])])
      = some "StdStringString"
    ∧ "StdRefStringRefStringRef" ≠ "StdStringString" ++ "Ref" := by
  exact ⟨rfl, rfl, by decide⟩

/-- Claim C5 (amended): for every reference type whose referent reduces to a
named path, the derived identifier is the concatenation, over the
referent's path segments, of the segment's derived fragment followed by
`Ref` — i.e. one `Ref` per segment — and for a single-segment referent
path this equals the referent's derived identifier with `Ref` appended
exactly once. -/
theorem ref_ident_per_segment (t : Ty) (segs : List (String × List Ty))
    (h : extract_path t = some segs) :
    ident_from_type (Ty.ref t)
      = some ((segs.map (fun sg => uppercase_first sg.1 ++ args_idents sg.2 ++ "Ref")).foldr
          (· ++ ·) "")
    ∧ (∀ name args, segs = [(name, args)] →
        ∃ base, ident_from_type (Ty.path segs) = some base
          ∧ ident_from_type (Ty.ref t) = some (base ++ "Ref")) := by
  have hbase : ident_from_type (Ty.ref t) = some (camel_case_ident segs "Ref") := by
    simp [ident_from_type, extract_camel_ident_eq, h]
  constructor
  · rw [hbase, camel_case_ident_foldr]
  · rintro name args rfl
    refine ⟨camel_case_ident [(name, args)] "", rfl, ?_⟩
    rw [hbase]
    simp [camel_case_ident, String.append_empty, String.append_assoc]

/-- Claim C5 (witness): instantiation at the single-segment reference
`&str`, discharging the reduces-to-a-path hypothesis. -/
theorem ref_ident_per_segment_witness :
    ∃ base, ident_from_type (Ty.path [("str", [])]) = some base
      ∧ ident_from_type (Ty.ref (Ty.path [("str", [])])) = some (base ++ "Ref") :=
  (ref_ident_per_segment (Ty.path [("str", [])]) [("str", [])] rfl).2 "str" [] rfl

theorem try_from_eval_self {variants : List Variant} {A : Variant} (B : Variant)
    (hnd : (variants.map Variant.ident).Nodup) (hA : A ∈ variants) :
    try_from_eval variants B A.ident = some (to_try_from_arm A B) := by
  induction variants with
  | nil => simp at hA
  | cons v rest ih =>
    by_cases hv : v.ident = A.ident
    · have hvA : v = A :=
        List.inj_on_of_nodup_map hnd (List.mem_cons_self v rest) hA hv
      subst hvA
      simp [try_from_eval]
    · have hAr : A ∈ rest := by
        rcases List.mem_cons.mp hA with rfl | hr
        · exact absurd rfl hv
        · exact hr
      simp only [try_from_eval, if_neg hv]
      exact ih (by simpa using hnd.of_cons) hAr

/-- Claim C1: with reverse conversion enabled, for every ordered pair of
declared variants (source `A`, target `B`) of a declaration whose display
identifiers are distinct (a requirement for the generated enum to be valid),
the `TryFrom` impl for `B`'s wrapped type, applied to a union value holding
`A`'s payload, returns `Ok` with the payload unchanged when `A` and `B` are
the same variant, returns `Ok` with the payload converted via `.into()` when
`A`'s `#[into]` list contains `B`'s wrapped type, and otherwise returns
`Err` with a message naming both type strings. -/
theorem try_from_reverse_conversion (variants : List Variant) (A B : Variant)
    (hnd : (variants.map Variant.ident).Nodup)
    (hA : A ∈ variants) (hB : B ∈ variants) :
    (A = B → try_from_eval variants B A.ident = some TryFromArm.okValue)
    ∧ (A ≠ B → B.ty ∈ A.into →
        try_from_eval variants B A.ident = some TryFromArm.okValueInto)
    ∧ (A ≠ B → B.ty ∉ A.into →
        try_from_eval variants B A.ident
          = some (TryFromArm.errMsg
              ("No conversion from '" ++ A.type_to_string ++ "' to " ++ B.type_to_string))) := by
  have heval := try_from_eval_self (A := A) B hnd hA
  refine ⟨?_, ?_, ?_⟩
  · rintro rfl
    rw [heval]
    simp [to_try_from_arm]
  · intro hne hmem
    rw [heval]
    have hid : A.ident ≠ B.ident := map_ident_ne hnd hA hB hne
    simp [to_try_from_arm, hid, hmem]
  · intro hne hmem
    rw [heval]
    have hid : A.ident ≠ B.ident := map_ident_ne hnd hA hB hne
    simp [to_try_from_arm, hid, hmem]

/-- Claim C1 (witness): a two-variant declaration `{ i64, #[into(i64)] i32 }`
with reverse conversion — converting the union holding the `i32` payload
into `i64` takes the declared-convertibility case. -/
theorem try_from_reverse_conversion_witness :
    vI32intoI64 ≠ vI64
    ∧ try_from_eval [vI64, vI32intoI64] vI64 "I32" = some TryFromArm.okValueInto :=
  ⟨by decide,
    (try_from_reverse_conversion [vI64, vI32intoI64] vI32intoI64 vI64
      (by decide) (by decide) (by decide)).2.1 (by decide) (by decide)⟩

/-- Claim C2: with the `is_as` accessors enabled, for every declared variant
`V` (in a declaration with distinct display identifiers) and every payload
`x`, building the union via the generated `From` impl and then calling `V`'s
consuming `try_as_*` accessor returns `Some` of the original payload
unchanged. -/
theorem from_then_try_as_roundtrip {α : Type} (variants : List Variant) (V : Variant)
    (x : α) (conv : α → α)
    (hnd : (variants.map Variant.ident).Nodup) (hV : V ∈ variants) :
    try_as_eval variants V.ty (from_value V x).1 (from_value V x).2 conv = some x := by
  induction variants with
  | nil => simp at hV
  | cons v rest ih =>
    by_cases hv : v = V
    · subst hv
      simp [try_as_eval, to_as_type_arm, from_value]
    · have hVr : V ∈ rest := by
        rcases List.mem_cons.mp hV with rfl | hr
        · exact absurd rfl hv
        · exact hr
      have hid : v.ident ≠ V.ident :=
        map_ident_ne hnd (List.mem_cons_self v rest) hV hv
      have htail := ih (by simpa using hnd.of_cons) hVr
      simp only [try_as_eval, from_value] at htail ⊢
      cases harm : to_as_type_arm v V.ty with
      | none => exact htail
      | some arm => simp [hid, htail]

/-- Claim C2 (witness): a two-variant `{ i32, String }` declaration; pushing
payload `5` in at the `String` variant and extracting it back returns
`some 5`. -/
theorem from_then_try_as_roundtrip_witness :
    try_as_eval [vI32, vString] vString.ty (from_value vString (5 : Nat)).1
      (from_value vString (5 : Nat)).2 id = some 5 :=
  from_then_try_as_roundtrip [vI32, vString] vString (5 : Nat) id (by decide) (by decide)

theorem type_name_eval_self {variants : List Variant} {V : Variant}
    (hnd : (variants.map Variant.ident).Nodup) (hV : V ∈ variants) :
    type_name_eval variants V.ident = some V.type_to_string := by
  induction variants with
  | nil => simp at hV
  | cons v rest ih =>
    by_cases hv : v.ident = V.ident
    · have hvV : v = V :=
        List.inj_on_of_nodup_map hnd (List.mem_cons_self v rest) hV hv
      subst hvV
      simp [type_name_eval]
    · have hVr : V ∈ rest := by
        rcases List.mem_cons.mp hV with rfl | hr
        · exact absurd rfl hv
        · exact hr
      simp only [type_name_eval, if_neg hv]
      exact ih (by simpa using hnd.of_cons) hVr

/-- Claim C7: with introspection enabled, the generated `count` constant
equals the number of declared variants; the generated `types` list is, entry
by entry, the variants' display type strings in declaration order (and has
`count` entries); and for every union value built from a declared variant,
the instance `type_name` query returns exactly that variant's display type
string (given distinct display identifiers, as the generated enum requires). -/
theorem introspection_correct {α : Type} (variants : List Variant) (V : Variant) (x : α)
    (hnd : (variants.map Variant.ident).Nodup) (hV : V ∈ variants) :
    introspection_count variants = variants.length
    ∧ (∀ i : Nat,
        (introspection_types variants)[i]? = (variants[i]?).map Variant.type_to_string)
    ∧ (introspection_types variants).length = introspection_count variants
    ∧ type_name_eval variants (from_value V x).1 = some V.type_to_string := by
  refine ⟨rfl, ?_, ?_, ?_⟩
  · intro i
    simp [introspection_types, List.getElem?_map]
  · simp [introspection_types, introspection_count]
  · exact type_name_eval_self hnd hV

/-- Claim C7 (witness): the three-variant declaration `{ i32, String, f64 }`;
the count is `3` and the value built from the `String` variant reports its
type name. -/
theorem introspection_correct_witness :
    introspection_count [vI32, vString, vF64] = 3
    ∧ type_name_eval [vI32, vString, vF64] (from_value vString (0 : Nat)).1
        = some vString.type_to_string :=
  ⟨(introspection_correct (α := Nat) [vI32, vString, vF64] vString 0
      (by decide) (by decide)).1,
    (introspection_correct (α := Nat) [vI32, vString, vF64] vString 0
      (by decide) (by decide)).2.2.2⟩

theorem check_duplicate_types_ok_iff (vs : List Variant) (seen : List Ty) :
    check_duplicate_types seen vs = Except.ok ()
      ↔ ((vs.map Variant.ty).Nodup ∧ ∀ v ∈ vs, v.ty ∉ seen) := by
  induction vs generalizing seen with
  | nil => simp [check_duplicate_types]
  | cons v rest ih =>
    by_cases hv : v.ty ∈ seen
    · simp only [check_duplicate_types, if_pos hv]
      constructor
      · intro h; cases h
      · rintro ⟨-, hall⟩
        exact absurd hv (hall v (List.mem_cons_self v rest))
    · rw [show check_duplicate_types seen (v :: rest)
          = check_duplicate_types (v.ty :: seen) rest by simp [check_duplicate_types, hv], ih]
      constructor
      · rintro ⟨hnd, hall⟩
        refine ⟨?_, ?_⟩
        · rw [List.map_cons, List.nodup_cons]
          refine ⟨?_, hnd⟩
          intro hmem
          rcases List.mem_map.mp hmem with ⟨w, hw, hwty⟩
          have hws := hall w hw
          rw [hwty] at hws
          exact hws (List.mem_cons_self _ _)
        · intro w hw
          rcases List.mem_cons.mp hw with rfl | hw2
          · exact hv
          · intro hsin
            exact (hall w hw2) (List.mem_cons_of_mem _ hsin)
      · rintro ⟨hnd, hall⟩
        rw [List.map_cons] at hnd
        have hnd2 := List.nodup_cons.mp hnd
        refine ⟨hnd2.2, ?_⟩
        intro w hw hmem
        rcases List.mem_cons.mp hmem with hEq | hsin
        · exact hnd2.1 (List.mem_map.mpr ⟨w, hw, hEq⟩)
        · exact hall w (List.mem_cons_of_mem _ hw) hsin

theorem check_duplicate_types_ok_or_error (vs : List Variant) (seen : List Ty) :
    check_duplicate_types seen vs = Except.ok ()
    ∨ check_duplicate_types seen vs = Except.error "Duplicate variant type detected" := by
  induction vs generalizing seen with
  | nil => exact Or.inl rfl
  | cons v rest ih =>
    by_cases hv : v.ty ∈ seen
    · exact Or.inr (by simp [check_duplicate_types, hv])
    · simpa [check_duplicate_types, hv] using ih (v.ty :: seen)

/-- Claim C3 (amended): the parser's uniqueness pass fails — with the error
`Duplicate variant type detected`, aborting the invocation — exactly when
two variants share a structurally equal wrapped type; variants that resolve
to the same display name are not detected (the pass inspects only wrapped
types), so such input parses and code is emitted for it. -/
theorem duplicate_check_amended (vs : List Variant) :
    (check_duplicate_types [] vs = Except.ok () ↔ (vs.map Variant.ty).Nodup)
    ∧ (¬ (vs.map Variant.ty).Nodup →
        check_duplicate_types [] vs = Except.error "Duplicate variant type detected") := by
  have h := check_duplicate_types_ok_iff vs []
  simp only [List.not_mem_nil, not_false_iff, implies_true, and_true] at h
  refine ⟨h, ?_⟩
  intro hdup
  rcases check_duplicate_types_ok_or_error vs [] with hok | herr
  · exact absurd (h.mp hok) hdup
  · exact herr

/-- Claim C3 (witness): two variants both wrapping `i32` are rejected with
the duplicate-type error. -/
theorem duplicate_check_amended_witness :
    check_duplicate_types [] [vI32, { attrs := [], into := [], ident := "Other", ty := tyI32 }]
      = Except.error "Duplicate variant type detected" :=
  (duplicate_check_amended
    [vI32, { attrs := [], into := [], ident := "Other", ty := tyI32 }]).2 (by decide)

/-- Claim C3 (counterexample): the input `enum { i32 (u32), i32 }` parses two
variants that both resolve to display name `I32` (the first holds `u32`, the
second `i32`); the parser's uniqueness pass accepts it — no parse-time error
is raised for the duplicate display name. -/
theorem duplicate_name_counterexample :
    check_duplicate_types [] [vU32namedI32, vI32] = Except.ok ()
    ∧ [vU32namedI32, vI32].map Variant.ident = ["I32", "I32"] := by
  exact ⟨rfl, rfl⟩

theorem expand_method_eq (variants : List Variant) (f : FnSig) :
    expand_method variants f
      = if f.inputs.head? = some FnArg.receiver
          then some (variants.map (fun v => to_fn_call_arm v f.name f.inputs))
          else none := by
  rcases hh : f.inputs.head? with _ | a
  · simp [expand_method, hh]
  · cases a <;> simp [expand_method, hh]

/-- Claim C8: the delegation emitter is a total function of the parsed
declaration — its output is exactly the receiver-headed signatures, each
paired with one dispatch arm per variant that pattern-matches that variant
and forwards to the same-named method on the payload with the non-receiver
argument patterns in order; a signature whose first parameter is not a
receiver contributes nothing and produces no diagnostic. -/
theorem method_delegation (variants : List Variant) (fns : List FnSig) :
    method_tokens variants fns
      = (fns.filter (fun f => decide (f.inputs.head? = some FnArg.receiver))).map
          (fun f => (f, variants.map (fun v => to_fn_call_arm v f.name f.inputs)))
    ∧ (∀ f : FnSig, f.inputs.head? = some FnArg.receiver →
        expand_method variants f
          = some (variants.map (fun v =>
              { variant_ident := v.ident
                call_name := f.name
                call_args := f.inputs.filterMap
                  (fun a => match a with | .receiver => none | .typed p => some p) })))
    ∧ (∀ f : FnSig, f.inputs.head? ≠ some FnArg.receiver → expand_method variants f = none) := by
  refine ⟨?_, ?_, ?_⟩
  · induction fns with
    | nil => rfl
    | cons f rest ih =>
      by_cases hf : f.inputs.head? = some FnArg.receiver <;>
        simp [method_tokens, List.filterMap_cons, List.filter_cons, expand_method_eq, hf,
          ← ih, method_tokens]
  · intro f hf
    simp [expand_method_eq, hf, to_fn_call_arm]
  · intro f hf
    simp [expand_method_eq, hf]

/-- Claim C8 (witness): over the single-variant declaration `{ i32 }`, the
receiver signature `fn len(&self)` expands to the dispatching arm
`Value::I32(value) => value.len()`, while the receiverless signature
`fn new(x)` expands to nothing. -/
theorem method_delegation_witness :
    expand_method [vI32] { name := "len", inputs := [FnArg.receiver] }
      = some [{ variant_ident := "I32", call_name := "len", call_args := [] }]
    ∧ expand_method [vI32] { name := "new", inputs := [FnArg.typed "x"] } = none :=
  ⟨(method_delegation [vI32] []).2.1 { name := "len", inputs := [FnArg.receiver] } rfl,
    (method_delegation [vI32] []).2.2 { name := "new", inputs := [FnArg.typed "x"] }
      (by decide)⟩

/-- Claim C9: whenever fewer than 26 single-uppercase-letter type parameters
are in scope, `new_type` returns (no panic) the alphabetically first unused
letter of `A..Z`, which is not among the type parameters; and whenever fewer
than 26 single-letter lifetimes are in scope, `new_lifetime` returns the
first unused letter scanning `z` down to `a`, not among the lifetimes — so
under these preconditions the `panic!` fallthrough is unreachable. -/
theorem fresh_generics (g : Generics)
    (ht : (upper_alphabet.filter (fun c => contains_type g c.toString)).length < 26)
    (hl : (lower_alphabet_rev.filter (fun c => contains_lifetime g c.toString)).length < 26) :
    (∃ c l1 l2, new_type g = some c.toString
        ∧ contains_type g c.toString = false
        ∧ c.toString ∉ g.type_params
        ∧ upper_alphabet = l1 ++ c :: l2
        ∧ ∀ d ∈ l1, contains_type g d.toString = true)
    ∧ (∃ c l1 l2, new_lifetime g = some c.toString
        ∧ contains_lifetime g c.toString = false
        ∧ c.toString ∉ g.lifetimes
        ∧ lower_alphabet_rev = l1 ++ c :: l2
        ∧ ∀ d ∈ l1, contains_lifetime g d.toString = true) := by
  constructor
  · have hlen : upper_alphabet.length = 26 := by decide
    have hex := exists_not_of_filter_length_lt
      (fun c => contains_type g c.toString) upper_alphabet (by rw [hlen]; exact ht)
    have hex2 : ∃ x ∈ upper_alphabet, (! contains_type g x.toString) = true := by
      rcases hex with ⟨x, hx, hpx⟩
      exact ⟨x, hx, by simp [hpx]⟩
    rcases find?_first _ upper_alphabet hex2 with ⟨c, l1, l2, hfind, hpc, heq, hpre⟩
    refine ⟨c, l1, l2, ?_, ?_, ?_, heq, ?_⟩
    · simp [new_type, hfind]
    · simpa using hpc
    · have : contains_type g c.toString = false := by simpa using hpc
      simpa [contains_type] using this
    · intro d hd
      have := hpre d hd
      simpa using this
  · have hlen : lower_alphabet_rev.length = 26 := by decide
    have hex := exists_not_of_filter_length_lt
      (fun c => contains_lifetime g c.toString) lower_alphabet_rev (by rw [hlen]; exact hl)
    have hex2 : ∃ x ∈ lower_alphabet_rev, (! contains_lifetime g x.toString) = true := by
      rcases hex with ⟨x, hx, hpx⟩
      exact ⟨x, hx, by simp [hpx]⟩
    rcases find?_first _ lower_alphabet_rev hex2 with ⟨c, l1, l2, hfind, hpc, heq, hpre⟩
    refine ⟨c, l1, l2, ?_, ?_, ?_, heq, ?_⟩
    · simp [new_lifetime, hfind]
    · simpa using hpc
    · have : contains_lifetime g c.toString = false := by simpa using hpc
      simpa [contains_lifetime] using this
    · intro d hd
      have := hpre d hd
      simpa using this

/-- Claim C9 (witness): with lifetimes `{'z}` and type parameters `{A}` in
scope, both routines succeed on fresh letters. -/
theorem fresh_generics_witness :
    (∃ c l1 l2, new_type ⟨["z"], ["A"]⟩ = some c.toString
        ∧ contains_type ⟨["z"], ["A"]⟩ c.toString = false
        ∧ c.toString ∉ (⟨["z"], ["A"]⟩ : Generics).type_params
        ∧ upper_alphabet = l1 ++ c :: l2
        ∧ ∀ d ∈ l1, contains_type ⟨["z"], ["A"]⟩ d.toString = true)
    ∧ (∃ c l1 l2, new_lifetime ⟨["z"], ["A"]⟩ = some c.toString
        ∧ contains_lifetime ⟨["z"], ["A"]⟩ c.toString = false
        ∧ c.toString ∉ (⟨["z"], ["A"]⟩ : Generics).lifetimes
        ∧ lower_alphabet_rev = l1 ++ c :: l2
        ∧ ∀ d ∈ l1, contains_lifetime ⟨["z"], ["A"]⟩ d.toString = true) :=
  fresh_generics ⟨["z"], ["A"]⟩ (by decide) (by decide)

theorem parse_ident_list_map (ids : List String) :
    parse_ident_list (ids.map DeriveItem.ident) = some ids := by
  induction ids with
  | nil => rfl
  | cons s rest ih => simp [parse_ident_list, ih]

theorem strip_copy_derives (dls : List (List String)) :
    strip_copy (dls.map (fun ids => Attr.derive (ids.map DeriveItem.ident)))
      = some (dls.map (fun ids =>
          Attr.derive ((ids.filter (· ≠ "Copy")).map DeriveItem.ident))) := by
  induction dls with
  | nil => rfl
  | cons ids rest ih => simp [strip_copy, strip_copy_attr, parse_ident_list_map, ih]

/-- Claim C10: the standard `vec` wrapper built from an enum whose derive
attributes are identifier lists always carries `#[derive(Default)]` first,
then the enum's derive attributes with `Copy` filtered out of every list
(other identifiers preserved in order); its single sequence field is named
`inner` with the enum's visibility; the struct itself uses the enum's
visibility, is non-custom, and is named by appending `Vec` to the enum's
name when no explicit wrapper name is given. -/
theorem vec_wrapper_standard (visibility enum_ident : String) (self_ident : Option String)
    (dls : List (List String)) :
    ∃ w, into_vec_wrapper [] self_ident visibility enum_ident
          (dls.map (fun ids => Attr.derive (ids.map DeriveItem.ident))) = some w
      ∧ w.attrs = Attr.derive [DeriveItem.ident "Default"]
          :: dls.map (fun ids => Attr.derive ((ids.filter (· ≠ "Copy")).map DeriveItem.ident))
      ∧ w.field_name = "inner"
      ∧ w.field_vis = visibility
      ∧ w.vis = visibility
      ∧ w.ident = self_ident.getD (enum_ident ++ "Vec")
      ∧ (self_ident = none → w.ident = enum_ident ++ "Vec")
      ∧ w.is_custom = false := by
  refine ⟨{ attrs := Attr.derive [DeriveItem.ident "Default"]
              :: dls.map (fun ids =>
                  Attr.derive ((ids.filter (· ≠ "Copy")).map DeriveItem.ident))
            vis := visibility
            ident := self_ident.getD (enum_ident ++ "Vec")
            field_vis := visibility
            field_name := "inner"
            is_custom := false }, ?_, rfl, rfl, rfl, rfl, rfl, ?_, rfl⟩
  · simp [into_vec_wrapper, strip_copy_derives]
  · rintro rfl
    rfl

/-- Claim C10 (witness): enum `Value` with `#[derive(Debug, Copy, Clone)]`
and a bare `vec;` — the wrapper is `ValueVec`, derives `Default` then
`Debug, Clone` (no `Copy`), and has the `inner` field. -/
theorem vec_wrapper_standard_witness :
    ∃ w, into_vec_wrapper [] none "pub" "Value"
          ([[ "Debug", "Copy", "Clone" ]].map
            (fun ids => Attr.derive (ids.map DeriveItem.ident))) = some w
      ∧ w.attrs = Attr.derive [DeriveItem.ident "Default"]
          :: [[ "Debug", "Copy", "Clone" ]].map
              (fun ids => Attr.derive ((ids.filter (· ≠ "Copy")).map DeriveItem.ident))
      ∧ w.field_name = "inner"
      ∧ w.field_vis = "pub"
      ∧ w.vis = "pub"
      ∧ w.ident = (none : Option String).getD ("Value" ++ "Vec")
      ∧ ((none : Option String) = none → w.ident = "Value" ++ "Vec")
      ∧ w.is_custom = false :=
  vec_wrapper_standard "pub" "Value" none [["Debug", "Copy", "Clone"]]

/-- Claim C6 (witness): instantiation at a concrete camel-case identifier. -/
theorem camel_to_snake_correct_witness :
    camel_to_snake "MyVariant" = snake_spec "MyVariant" :=
  camel_to_snake_correct.1 "MyVariant"

/-- Claim C4 (witness): instantiation at the slice of `i32`. -/
theorem ident_from_type_slice_rejected_witness :
    ident_from_type (Ty.slice tyI32) = none :=
  ident_from_type_slice_rejected tyI32

end Nodyn
